import Mathlib

/-!
Verification of the infinigen region-file storage engine and chunk
residency controller, shallowly embedded from the Rust sources
(`src/lib/src/managed_region.rs`, `src/src/region.rs`,
`src/lib/src/traits.rs`, `src/example/src/world.rs`).

Machine integers are modelled as `Nat`/`Int`; every place where the Rust
code truncates (an `as u8` / `as u32` cast) carries an explicit `% 256` /
`% 2^32`.  Rust's `/` and `%` on `i32` truncate toward zero, so they are
modelled with `Int.tdiv` / `Int.tmod`.
-/

namespace Infinigen

/-- Constant `SECTOR_SIZE` from `traits.rs` / `region.rs` (baseline 4096 bytes). -/
def SECTOR_SIZE : Nat := 4096

/-- Constant `REGION_WIDTH` from `traits.rs` / `region.rs` (baseline 16 chunks). -/
def REGION_WIDTH : Int := 16

/-- Constant `LOOKUP_TABLE_SIZE`: `lookup_table_size()` = `REGION_WIDTH * REGION_WIDTH * 2` = 512 bytes. -/
def LOOKUP_TABLE_SIZE : Nat := (REGION_WIDTH * REGION_WIDTH).toNat * 2

/-- The per-axis conversion inside `ManagedRegion::get_region_index` /
`RegionManager::get_region_index`:
`if q < 0 { q -= REGION_WIDTH }; q / d` with Rust's truncating division. -/
def region_index_conv (q d : Int) : Int :=
  (if q < 0 then q - REGION_WIDTH else q).tdiv d

/-- Function `get_region_index` maps a `ChunkIndex` to its `RegionIndex`,
applying `region_index_conv` on each axis. -/
def get_region_index (chunk_index : Int × Int) : Int × Int :=
  (region_index_conv chunk_index.1 REGION_WIDTH,
   region_index_conv chunk_index.2 REGION_WIDTH)

/-- The per-axis conversion inside `normalize_chunk_index`:
`let i_new = i % REGION_WIDTH; if i_new < 0 { REGION_WIDTH + i_new } else { i_new }`
with Rust's truncating remainder. -/
def normalize_conv (i : Int) : Int :=
  let i_new := i.tmod REGION_WIDTH
  if i_new < 0 then REGION_WIDTH + i_new else i_new

/-- Function `normalize_chunk_index`: a chunk's index relative to its region. -/
def normalize_chunk_index (chunk_index : Int × Int) : Int × Int :=
  (normalize_conv chunk_index.1, normalize_conv chunk_index.2)

/-- Function `pad_byte_vec`: pushes `size - (bytes.len() % size)` zero bytes. -/
def pad_byte_vec (bytes : List Nat) (size : Nat) : List Nat :=
  bytes ++ List.replicate (size - bytes.length % size) 0

/-- A region file: byte contents as a function plus a length.  Bytes at or
past `length` read as zero, matching a zero-initialized `read` buffer. -/
structure FileModel where
  data : Nat → Nat
  length : Nat

/-- Reading one byte at position `i` of the file. -/
def FileModel.read_byte (f : FileModel) (i : Nat) : Nat :=
  if i < f.length then f.data i else 0

/-- Model of `seek(Start(offset))` followed by `write(bytes)`: bytes in
`[offset, offset+|bytes|)` come from `bytes`, any gap between the old end
of file and `offset` is zero-filled, everything else is preserved. -/
def FileModel.write (f : FileModel) (offset : Nat) (bytes : List Nat) : FileModel where
  data := fun i =>
    if offset ≤ i ∧ i < offset + bytes.length then bytes.getD (i - offset) 0
    else if i < f.length then f.data i else 0
  length := max f.length (offset + bytes.length)

/-- Function `read_bytes(offset, size)`: the `size` bytes starting at `offset`. -/
def FileModel.read_bytes (f : FileModel) (offset size : Nat) : List Nat :=
  (List.range size).map (fun i => f.read_byte (offset + i))

/-- Function `get_chunk_offset`: byte offset of a local index's slot in the lookup
table, `2 * ((x % REGION_WIDTH) + (y % REGION_WIDTH) * REGION_WIDTH)`.
All call sites pass `normalize_chunk_index` output, whose components lie in
`[0, REGION_WIDTH)`, so the `as u64` cast is value-preserving. -/
def get_chunk_offset (index : Int × Int) : Nat :=
  (2 * (index.1.tmod REGION_WIDTH + index.2.tmod REGION_WIDTH * REGION_WIDTH)).toNat

/-- Function `create_lookup_table_entry(eof, sector_count)`: the stored offset byte is
`((eof - LOOKUP_TABLE_SIZE) / SECTOR_SIZE) as u8` — the cast truncates to
8 bits, hence the `% 256`.  (`eof ≥ LOOKUP_TABLE_SIZE` in every reachable
state, so `Nat` subtraction agrees with the `u64` subtraction.) -/
def create_lookup_table_entry (eof : Nat) (sector_count : Nat) : List Nat :=
  [((eof - LOOKUP_TABLE_SIZE) / SECTOR_SIZE) % 256, sector_count]

/-- Function `read_chunk_offset`: reads the 2-byte slot; the record's byte offset is
`LOOKUP_TABLE_SIZE + data[0] * SECTOR_SIZE`; a zero count byte means the
slot is empty (`None`), otherwise the size is `data[1] * SECTOR_SIZE`. -/
def read_chunk_offset (f : FileModel) (index : Int × Int) : Nat × Option Nat :=
  let slot := get_chunk_offset index
  let data0 := f.read_byte slot
  let data1 := f.read_byte (slot + 1)
  (LOOKUP_TABLE_SIZE + data0 * SECTOR_SIZE,
   if data1 = 0 then none else some (data1 * SECTOR_SIZE))

/-- Function `write_chunk_offset`: writes the lookup-table entry for `index`. -/
def write_chunk_offset (f : FileModel) (index : Int × Int) (new_offset : Nat)
    (sector_count : Nat) : FileModel :=
  f.write (get_chunk_offset index) (create_lookup_table_entry new_offset sector_count)

/-- Result of an operation on the file that can also die on an `assert!`.
`panicked` carries the file state at the moment the assert fired. -/
inductive AppendResult
  | ok (f : FileModel)
  | panicked (f : FileModel)

/-- Function `append_chunk`: computes the sector count by ceiling division
(`(len as f32 / SECTOR_SIZE as f32).ceil()`, exact for the in-range sizes),
asserts `0 < sector_count < 256`, appends the data at end of file, writes
the lookup-table entry, then asserts the read-back equals what was written.
When the sector offset exceeds 255 the entry is stored truncated and the
read-back assert fires — after the truncated entry hit the file. -/
def append_chunk (f : FileModel) (chunk_data : List Nat) (index : Int × Int) :
    AppendResult :=
  let sector_count := (chunk_data.length + SECTOR_SIZE - 1) / SECTOR_SIZE
  if 256 ≤ sector_count ∨ sector_count = 0 then .panicked f
  else
    let new_offset := f.length
    let f1 := f.write new_offset chunk_data
    let f2 := write_chunk_offset f1 index new_offset sector_count
    let readback := read_chunk_offset f2 index
    if readback.1 = new_offset ∧ readback.2 = some (sector_count * SECTOR_SIZE)
    then .ok f2 else .panicked f2

/-- Function `update_chunk`: seek to `byte_offset` and overwrite with `chunk_data`. -/
def update_chunk (f : FileModel) (chunk_data : List Nat) (byte_offset : Nat) :
    FileModel :=
  f.write byte_offset chunk_data

/-- A `Region`: an open file plus the `unsaved_chunks` dirty set. -/
structure Region where
  file : FileModel
  unsaved_chunks : Finset (Int × Int)

/-- Result of `write_chunk`: success, or an `assert!` panic.  The Rust
signature is `SerialResult<()>`, but no path of the function constructs a
typed error itself — failures of its own checks are `assert!` panics.
`panicked` carries the region state at the moment the assert fired. -/
inductive WriteResult
  | ok (r : Region)
  | panicked (r : Region)

/-- Function `write_chunk(chunk, index)`: asserts the chunk is unsaved, pads the
encoded bytes to a sector boundary, reads the slot; on an existing record
it asserts the data still fits (`assert!(size >= compressed.len())`, the
"Chunk data grew past allocated sector_count!" assert) and updates in
place; on an empty slot it appends.  On success the chunk is marked saved.
The serializer output (`bincode::serialize`) is the `encoded` argument. -/
def write_chunk (r : Region) (encoded : List Nat) (index : Int × Int) :
    WriteResult :=
  if index ∉ r.unsaved_chunks then .panicked r
  else
    let compressed := pad_byte_vec encoded SECTOR_SIZE
    let normalized_idx := normalize_chunk_index index
    let res := read_chunk_offset r.file normalized_idx
    match res.2 with
    | some size =>
        if compressed.length ≤ size then
          .ok ⟨update_chunk r.file compressed res.1, r.unsaved_chunks.erase index⟩
        else .panicked r
    | none =>
        match append_chunk r.file compressed normalized_idx with
        | .ok f => .ok ⟨f, r.unsaved_chunks.erase index⟩
        | .panicked f => .panicked ⟨f, r.unsaved_chunks⟩

/-- The region state carried by a `WriteResult`, whether ok or panicked. -/
def WriteResult.state : WriteResult → Region
  | .ok r => r
  | .panicked r => r

/-- Whether a `WriteResult` is a success. -/
def WriteResult.isOk : WriteResult → Bool
  | .ok _ => true
  | .panicked _ => false

/-- Byte swap of a 32-bit value. -/
def bswap32 (v : Nat) : Nat :=
  v % 256 * 2 ^ 24 + v / 2 ^ 8 % 256 * 2 ^ 16 + v / 2 ^ 16 % 256 * 2 ^ 8 +
    v / 2 ^ 24 % 256

/-- Conversion `u32::from_be` / `u32::to_be`: the identity on a big-endian machine and
a byte swap on a little-endian one.  The two functions are the same
conversion, so both are modelled by this one definition, parametrized by
the machine's endianness. -/
def u32_be_conv (bigEndian : Bool) (v : Nat) : Nat :=
  if bigEndian then v % 2 ^ 32 else bswap32 v

/-- Function `serialize_u32`: `bits = u32::from_be(val)` then the four bytes
`[(bits >> 24) as u8, (bits >> 16) as u8, (bits >> 8) as u8, bits as u8]`. -/
def serialize_u32 (bigEndian : Bool) (val : Nat) : List Nat :=
  let bits := u32_be_conv bigEndian val
  [bits / 2 ^ 24 % 256, bits / 2 ^ 16 % 256, bits / 2 ^ 8 % 256, bits % 256]

/-- Function `deserialize_u32`: assemble the four bytes big-endian-wise and apply
`.to_be()`.  The Rust `|` of the shifted bytes is addition because the byte
ranges are disjoint; the `% 256` marks each operand's `u8` type. -/
def deserialize_u32 (bigEndian : Bool) (buf : List Nat) : Nat :=
  u32_be_conv bigEndian
    (buf.getD 0 0 % 256 * 2 ^ 24 + buf.getD 1 0 % 256 * 2 ^ 16 +
     buf.getD 2 0 % 256 * 2 ^ 8 + buf.getD 3 0 % 256)

/-- Function `compress_data` with the zlib encoder pipeline (`ZlibEncoder` write +
finish) abstracted as `enc`: a 4-byte length header over the compressed
bytes, then the compressed bytes.  `buf.len() as u32` truncates, hence the
`% 2 ^ 32`. -/
def compress_data (bigEndian : Bool) (enc : List Nat → List Nat)
    (bytes : List Nat) : List Nat :=
  let buf := enc bytes
  serialize_u32 bigEndian (buf.length % 2 ^ 32) ++ buf

/-- Function `decompress_data` with the zlib decoder (`ZlibDecoder` + `read_to_end`,
which can fail with an I/O error) abstracted as `dec`: split off the 4-byte
header, read its length, decode exactly that many following bytes.  (The
Rust slice operations panic on inputs shorter than the header promises; the
verified uses are in range.) -/
def decompress_data (bigEndian : Bool)
    (dec : List Nat → Except Unit (List Nat)) (bytes : List Nat) :
    Except Unit (List Nat) :=
  let data_length := deserialize_u32 bigEndian (bytes.take 4)
  dec ((bytes.drop 4).take data_length)

/-- The `SerialError` taxonomy of `lib/src/region.rs`.  The error payloads
irrelevant to control flow (`io::Error`, `bincode::ErrorKind`) are erased. -/
inductive SerialError
  | NoChunkInWorld (x y : Int)
  | NoChunkInSavefile (li : Int × Int)
  | ChunkAlreadyLoaded (x y : Int)
  | IoError
  | EncodingError
deriving DecidableEq

/-- Result of `read_chunk`: a decoded payload, a typed error, or death on
the entry `assert!(!self.chunk_unsaved(index))`. -/
inductive ReadOutcome (C : Type)
  | ok (c : C)
  | err (e : SerialError)
  | panicked

/-- Method `ManagedRegion::read_chunk`: asserts the chunk is not unsaved, reads the
slot (`NoChunkInSavefile` when empty), reads the record bytes, decompresses
(`decompress_data`'s failure is an `io::Error`, i.e. `IoError`), then
bincode-deserializes (`deser`, abstracted; failure is `EncodingError`).
Only on a successful decode is the index inserted into `unsaved_chunks`. -/
def read_chunk {C : Type} (r : Region) (bigEndian : Bool)
    (dec : List Nat → Except Unit (List Nat))
    (deser : List Nat → Except Unit C) (index : Int × Int) :
    Region × ReadOutcome C :=
  if index ∈ r.unsaved_chunks then (r, .panicked)
  else
    let normalized_idx := normalize_chunk_index index
    let res := read_chunk_offset r.file normalized_idx
    match res.2 with
    | none => (r, .err (.NoChunkInSavefile normalized_idx))
    | some size =>
        let buf := r.file.read_bytes res.1 size
        match decompress_data bigEndian dec buf with
        | .error _ => (r, .err .IoError)
        | .ok decompressed =>
            match deser decompressed with
            | .ok dat => (⟨r.file, insert index r.unsaved_chunks⟩, .ok dat)
            | .error _ => (r, .err .EncodingError)

/-- Result of `ChunkedWorld::load_chunk`: success, a returned typed error,
death on an `assert_eq!` post-condition, or the explicit
`Err(e) => panic!("{:?}", e)` arm carrying the read error. -/
inductive LoadOutcome
  | ok
  | err (e : SerialError)
  | panickedAssert
  | panickedOn (e : SerialError)
deriving DecidableEq

/-- Method `ChunkedWorld::load_chunk` (traits.rs), as a function of the result
`readRes` of `region.read_chunk(index)` on the current region state.
Returns the new resident set, the outcome, and whether the payload
generator (`generate_chunk`) was invoked.
* `Ok(c)` — `load_chunk_internal` inserts the chunk; the
  `assert_eq!(chunk_count, old_count + 1)` dies if it was already resident.
* `Err(NoChunkInSavefile(_))` — fail `ChunkAlreadyLoaded` if resident,
  otherwise generate the chunk and insert it (then
  `notify_chunk_creation` marks it in its region).
* any other `Err(e)` — `panic!("{:?}", e)`. -/
def load_chunk (resident : Finset (Int × Int)) (index : Int × Int)
    (readRes : Except SerialError Unit) :
    Finset (Int × Int) × LoadOutcome × Bool :=
  match readRes with
  | .ok _ =>
      if index ∈ resident then (resident, .panickedAssert, false)
      else (insert index resident, .ok, false)
  | .error (.NoChunkInSavefile _) =>
      if index ∈ resident then (resident, .err (.ChunkAlreadyLoaded index.1 index.2), false)
      else (insert index resident, .ok, true)
  | .error e => (resident, .panickedOn e, false)

/-- One quadrant loop of `World::update_chunks`: for `dr in 1..RADIUS+1`
and `i in 0..dr+1`, the index `(cx + (dr - i) * dx, cy + i * dy)`. -/
def quadrant (center : Int × Int) (radius : Nat) (dx dy : Int) :
    Finset (Int × Int) :=
  (Finset.range radius).biUnion fun dr =>
    (Finset.range (dr + 2)).image fun (i : Nat) =>
      (center.1 + ((dr : Int) + 1 - (i : Int)) * dx, center.2 + (i : Int) * dy)

/-- The `relevant` set built by `World::update_chunks`: the center chunk
plus the four sign-pair quadrants.  The code fixes `UPDATE_RADIUS = 3`;
the radius is kept as a parameter. -/
def relevant_chunks (center : Int × Int) (radius : Nat) :
    Finset (Int × Int) :=
  insert center
    (quadrant center radius (-1) 1 ∪ quadrant center radius 1 1 ∪
     quadrant center radius (-1) (-1) ∪ quadrant center radius 1 (-1))

/-- The resident-set effect of a successful `World::update_chunks`: the
load loop inserts every relevant index not yet loaded, then the unload
loop removes every loaded index outside `relevant`. -/
def update_chunks_resident (resident : Finset (Int × Int))
    (center : Int × Int) (radius : Nat) : Finset (Int × Int) :=
  let rel := relevant_chunks center radius
  (resident ∪ rel).filter (· ∈ rel)

/-- A freshly created region file: `LOOKUP_TABLE_SIZE` zero bytes, as
written by `get_region_file` for an absent file. -/
def freshFile : FileModel := ⟨fun _ => 0, LOOKUP_TABLE_SIZE⟩

/-- Region-file states reachable by the region's own operations: the fresh
file produced by `get_region_file`, and the file of any successful
`write_chunk` (the only file-writing operation; `read_chunk` and
`receive_created_chunk` touch only the dirty set, which does not influence
the file evolution beyond the entry assert, so the dirty set is taken to
be exactly `{index}`). -/
inductive ReachableFile : FileModel → Prop
  | fresh : ReachableFile freshFile
  | write (f : FileModel) (encoded : List Nat) (index : Int × Int)
      (r' : Region) (hf : ReachableFile f)
      (h : write_chunk ⟨f, {index}⟩ encoded index = .ok r') :
      ReachableFile r'.file

/-- The corrected lookup-table invariant: the file length is
`LOOKUP_TABLE_SIZE` plus a whole number of sectors (in particular the
table is always covered), and every slot is either empty — `(0, 0)` — or
holds an offset byte in `[0, 255]` and a count byte in `[1, 255]`. -/
def table_ok (f : FileModel) : Prop :=
  (∃ k, f.length = LOOKUP_TABLE_SIZE + k * SECTOR_SIZE) ∧
  ∀ s, s < 256 →
    (f.read_byte (2 * s) = 0 ∧ f.read_byte (2 * s + 1) = 0) ∨
    (f.read_byte (2 * s) ≤ 255 ∧ 1 ≤ f.read_byte (2 * s + 1) ∧
     f.read_byte (2 * s + 1) ≤ 255)

/-- The file produced by scenario 2's first write: a 3000-byte payload for
chunk `(2, 2)` appended into a fresh region. -/
def firstAppendFile : FileModel :=
  write_chunk_offset (freshFile.write freshFile.length
    (pad_byte_vec (List.replicate 3000 0) SECTOR_SIZE))
    (normalize_chunk_index (2, 2)) freshFile.length 1

/-- A region whose slot for chunk `(2, 2)` holds `(offset 0, count 1)` —
one sector allocated at byte 512 — with the file `512 + 4096` bytes long
and `(2, 2)` dirty: the state reached by scenario 2 of the spec. -/
def regionOneSector : Region :=
  ⟨⟨fun i => if i = 69 then 1 else 0, 4608⟩, {(2, 2)}⟩

/-- The state after scenario: a region file completely filled up to sector
offset 256 (file length `512 + 256 * 4096`), all lookup slots empty. -/
def bigFile : FileModel := ⟨fun _ => 0, 512 + 256 * 4096⟩

/-! ## Helper lemmas -/

theorem pad_byte_vec_length (bytes : List Nat) (size : Nat) (h : 0 < size) :
    (pad_byte_vec bytes size).length = size * (bytes.length / size + 1) := by
  have hlen : (pad_byte_vec bytes size).length
      = bytes.length + (size - bytes.length % size) := by
    simp [pad_byte_vec]
  have hmod : bytes.length % size < size := Nat.mod_lt _ h
  obtain ⟨t, ht⟩ : ∃ t, t = size * (bytes.length / size) := ⟨_, rfl⟩
  have hdm : t + bytes.length % size = bytes.length := by
    rw [ht]; exact Nat.div_add_mod bytes.length size
  rw [hlen, Nat.mul_add, Nat.mul_one, ← ht]
  omega

theorem tmod_sixteen_bounds (a : Int) : -16 < a.tmod 16 ∧ a.tmod 16 < 16 := by
  refine ⟨?_, Int.tmod_lt_of_pos _ (by norm_num)⟩
  rcases le_or_lt 0 a with h | h
  · have := Int.tmod_nonneg (16 : Int) h; omega
  · have h2 : (-a).tmod 16 < 16 := Int.tmod_lt_of_pos _ (by norm_num)
    have h3 : (-a).tmod 16 = -(a.tmod 16) := by
      rw [Int.tmod_def, Int.tmod_def, Int.neg_tdiv]; ring
    omega

theorem normalize_conv_range (i : Int) :
    0 ≤ normalize_conv i ∧ normalize_conv i < 16 := by
  have h := tmod_sixteen_bounds i
  unfold normalize_conv REGION_WIDTH
  simp only []
  split_ifs <;> omega

/-- The lookup-table slot of a normalized index is even and at most 510,
so both its bytes lie inside the 512-byte lookup table. -/
theorem get_chunk_offset_normalize (index : Int × Int) :
    ∃ t, t < 256 ∧
      get_chunk_offset (normalize_chunk_index index) = 2 * t := by
  obtain ⟨hx0, hx1⟩ := normalize_conv_range index.1
  obtain ⟨hy0, hy1⟩ := normalize_conv_range index.2
  have e1 : (normalize_conv index.1).tmod REGION_WIDTH
      = normalize_conv index.1 := by
    unfold REGION_WIDTH
    rw [Int.tmod_eq_emod hx0 (by norm_num), Int.emod_eq_of_lt hx0 (by omega)]
  have e2 : (normalize_conv index.2).tmod REGION_WIDTH
      = normalize_conv index.2 := by
    unfold REGION_WIDTH
    rw [Int.tmod_eq_emod hy0 (by norm_num), Int.emod_eq_of_lt hy0 (by omega)]
  refine ⟨(normalize_conv index.1
      + normalize_conv index.2 * REGION_WIDTH).toNat, ?_, ?_⟩
  · unfold REGION_WIDTH; omega
  · unfold get_chunk_offset normalize_chunk_index
    rw [e1, e2]
    unfold REGION_WIDTH
    omega

/-! ## Helper lemmas about the file model -/

theorem FileModel.length_write (f : FileModel) (o : Nat) (d : List Nat) :
    (f.write o d).length = max f.length (o + d.length) := rfl

theorem FileModel.read_byte_write_outside (f : FileModel) (o : Nat)
    (d : List Nat) (i : Nat) (h : i < o ∨ o + d.length ≤ i) :
    (f.write o d).read_byte i = f.read_byte i := by
  unfold FileModel.write FileModel.read_byte
  simp only
  split_ifs <;> first | rfl | (exfalso; omega)

theorem FileModel.read_byte_write_inside (f : FileModel) (o : Nat)
    (d : List Nat) (i : Nat) (h1 : o ≤ i) (h2 : i < o + d.length) :
    (f.write o d).read_byte i = d.getD (i - o) 0 := by
  unfold FileModel.write FileModel.read_byte
  simp only
  split_ifs <;> first | rfl | (exfalso; omega)

/-! ## C1 -/

/-- Claim C1.  The region mapping does *not* equal floored division at exact
negative multiples of `REGION_WIDTH`: `get_region_index` maps chunk
x-coordinate `-16` (with `REGION_WIDTH = 16`) to region `-2`, while floored
division gives `-1`, and the `region * REGION_WIDTH + local` reconstruction
fails there; the mapping does agree with floored division at `(-1, -1)`,
the case the code comments document.  The code computes
`if q < 0 { q -= REGION_WIDTH }; q / REGION_WIDTH` where the correct
adjustment for floored division is `REGION_WIDTH - 1`. -/
theorem c1_region_index_truncation_bug :
    get_region_index (-16, 0) = (-2, 0) ∧
    Int.fdiv (-16) REGION_WIDTH = -1 ∧
    (get_region_index (-16, 0)).1 * REGION_WIDTH
      + (normalize_chunk_index (-16, 0)).1 ≠ -16 ∧
    get_region_index (-1, -1) = (-1, -1) ∧
    Int.fdiv (-1) REGION_WIDTH = -1 := by
  refine ⟨rfl, rfl, by decide, rfl, rfl⟩

/-! ## C5 -/

/-- Claim C5 counterexample.  A byte vector whose length is already an exact
multiple of `SECTOR_SIZE` is *not* left at that length: `pad_byte_vec`
appends a full extra sector, giving length `2 * SECTOR_SIZE` where the
claim demands `SECTOR_SIZE` (the smallest multiple of `SECTOR_SIZE` that is
`≥ SECTOR_SIZE`). -/
theorem c5_pad_exact_multiple_counterexample :
    (pad_byte_vec (List.replicate SECTOR_SIZE 0) SECTOR_SIZE).length
      = 2 * SECTOR_SIZE ∧ 2 * SECTOR_SIZE ≠ SECTOR_SIZE := by
  constructor
  · rw [pad_byte_vec, List.length_append, List.length_replicate,
      List.length_replicate]
    norm_num [SECTOR_SIZE]
  · decide

/-- Claim C5 amended.  For every byte vector of length `n` and positive
sector size, the padded result has length `size * (n / size + 1)` — the
smallest multiple of the sector size *strictly greater* than `n` (so a
vector already at an exact multiple grows by one full sector; between one
and `size` zero bytes are always appended). -/
theorem c5_pad_next_strict_multiple (bytes : List Nat) (size : Nat)
    (h : 0 < size) :
    (pad_byte_vec bytes size).length = size * (bytes.length / size + 1) ∧
    bytes.length < (pad_byte_vec bytes size).length ∧
    (pad_byte_vec bytes size).length ≤ bytes.length + size := by
  have hmod : bytes.length % size < size := Nat.mod_lt _ h
  obtain ⟨t, ht⟩ : ∃ t, t = size * (bytes.length / size) := ⟨_, rfl⟩
  have hdm : t + bytes.length % size = bytes.length := by
    rw [ht]; exact Nat.div_add_mod bytes.length size
  have hlen := pad_byte_vec_length bytes size h
  rw [Nat.mul_add, Nat.mul_one, ← ht] at hlen
  refine ⟨?_, by omega, by omega⟩
  rw [hlen, Nat.mul_add, Nat.mul_one, ← ht]

/-- Claim C5 witness: the amended statement at `bytes = [1, 2, 3]`,
`size = 8`. -/
theorem c5_pad_next_strict_multiple_witness :
    0 < 8 ∧
    ((pad_byte_vec [1, 2, 3] 8).length = 8 * ([1, 2, 3].length / 8 + 1) ∧
     [1, 2, 3].length < (pad_byte_vec [1, 2, 3] 8).length ∧
     (pad_byte_vec [1, 2, 3] 8).length ≤ [1, 2, 3].length + 8) :=
  ⟨by decide, c5_pad_next_strict_multiple [1, 2, 3] 8 (by decide)⟩

/-! ## C10 -/

theorem bswap32_bytes (x0 x1 x2 x3 : Nat) (h0 : x0 < 256) (h1 : x1 < 256)
    (h2 : x2 < 256) (h3 : x3 < 256) :
    bswap32 (x0 * 2 ^ 24 + x1 * 2 ^ 16 + x2 * 2 ^ 8 + x3)
      = x3 * 2 ^ 24 + x2 * 2 ^ 16 + x1 * 2 ^ 8 + x0 := by
  unfold bswap32
  omega

theorem u32_reassemble (w : Nat) (hw : w < 2 ^ 32) :
    w / 2 ^ 24 % 256 * 2 ^ 24 + w / 2 ^ 16 % 256 * 2 ^ 16
      + w / 2 ^ 8 % 256 * 2 ^ 8 + w % 256 = w := by
  have e1 : w / 2 ^ 16 = w / 2 ^ 8 / 2 ^ 8 := by
    rw [Nat.div_div_eq_div_mul]; norm_num
  have e2 : w / 2 ^ 24 = w / 2 ^ 16 / 2 ^ 8 := by
    rw [Nat.div_div_eq_div_mul]; norm_num
  omega

theorem bswap32_involutive (v : Nat) (hv : v < 2 ^ 32) :
    bswap32 (bswap32 v) = v := by
  have h1 : bswap32 v = v % 256 * 2 ^ 24 + v / 2 ^ 8 % 256 * 2 ^ 16
      + v / 2 ^ 16 % 256 * 2 ^ 8 + v / 2 ^ 24 % 256 := rfl
  rw [h1, bswap32_bytes _ _ _ _ (by omega) (by omega) (by omega) (by omega)]
  exact u32_reassemble v hv

theorem deserialize_serialize_u32 (bigEndian : Bool) (v : Nat)
    (hv : v < 2 ^ 32) :
    deserialize_u32 bigEndian (serialize_u32 bigEndian v) = v := by
  cases bigEndian
  · simp only [deserialize_u32, serialize_u32, u32_be_conv,
      Bool.false_eq_true, if_false, List.getD_cons_zero, List.getD_cons_succ]
    have hlt : bswap32 v < 2 ^ 32 := by unfold bswap32; omega
    have e1 : bswap32 v / 2 ^ 16 = bswap32 v / 2 ^ 8 / 2 ^ 8 := by
      rw [Nat.div_div_eq_div_mul]; norm_num
    have e2 : bswap32 v / 2 ^ 24 = bswap32 v / 2 ^ 16 / 2 ^ 8 := by
      rw [Nat.div_div_eq_div_mul]; norm_num
    have hre : bswap32 v / 2 ^ 24 % 256 % 256 * 2 ^ 24
        + bswap32 v / 2 ^ 16 % 256 % 256 * 2 ^ 16
        + bswap32 v / 2 ^ 8 % 256 % 256 * 2 ^ 8 + bswap32 v % 256 % 256
        = bswap32 v := by omega
    rw [hre]
    exact bswap32_involutive v hv
  · simp only [deserialize_u32, serialize_u32, u32_be_conv, if_true,
      List.getD_cons_zero, List.getD_cons_succ]
    have e1 : v / 2 ^ 16 = v / 2 ^ 8 / 2 ^ 8 := by
      rw [Nat.div_div_eq_div_mul]; norm_num
    have e2 : v / 2 ^ 24 = v / 2 ^ 16 / 2 ^ 8 := by
      rw [Nat.div_div_eq_div_mul]; norm_num
    omega

/-- Claim C10.  `decompress_data ∘ compress_data` recovers the original byte
vector, and keeps doing so after any number of trailing zero bytes are
appended to `compress_data`'s output, because the 4-byte length header
written by `compress_data` delimits exactly the compressed payload and
`decompress_data` decodes only that many bytes after the header;
`serialize_u32` and `deserialize_u32` are mutually inverse on every `u32`.
The zlib encoder/decoder pair is abstracted as `enc`/`dec` under the
library's roundtrip contract, and the statement holds for either machine
endianness. -/
theorem c10_compress_roundtrip_padding (bigEndian : Bool)
    (enc : List Nat → List Nat) (dec : List Nat → Except Unit (List Nat))
    (b : List Nat) (k v : Nat)
    (hdec : dec (enc b) = .ok b) (hlen : (enc b).length < 2 ^ 32)
    (hv : v < 2 ^ 32) :
    decompress_data bigEndian dec
        (compress_data bigEndian enc b ++ List.replicate k 0) = .ok b ∧
    deserialize_u32 bigEndian (serialize_u32 bigEndian v) = v := by
  refine ⟨?_, deserialize_serialize_u32 bigEndian v hv⟩
  have hser_len : (serialize_u32 bigEndian ((enc b).length % 2 ^ 32)).length
      = 4 := by simp [serialize_u32]
  unfold compress_data decompress_data
  simp only
  have h1 : (serialize_u32 bigEndian ((enc b).length % 2 ^ 32)
      ++ enc b ++ List.replicate k 0).take 4
      = serialize_u32 bigEndian ((enc b).length % 2 ^ 32) := by
    rw [List.append_assoc]; exact List.take_left' hser_len
  have h2 : (serialize_u32 bigEndian ((enc b).length % 2 ^ 32)
      ++ enc b ++ List.replicate k 0).drop 4
      = enc b ++ List.replicate k 0 := by
    rw [List.append_assoc]; exact List.drop_left' hser_len
  rw [h1, h2, deserialize_serialize_u32 bigEndian _
      (Nat.mod_lt _ (by norm_num)), Nat.mod_eq_of_lt hlen, List.take_left]
  exact hdec

/-- Claim C10 witness: the roundtrip at `enc = id`, `dec = Except.ok`,
`b = [1, 2, 3]`, nine trailing zero bytes, `v = 5`, on a little-endian
machine. -/
theorem c10_compress_roundtrip_padding_witness :
    ((fun l : List Nat => (Except.ok l : Except Unit (List Nat)))
        (id ([1, 2, 3] : List Nat)) = .ok [1, 2, 3] ∧
     (id ([1, 2, 3] : List Nat)).length < 2 ^ 32 ∧ (5 : Nat) < 2 ^ 32) ∧
    (decompress_data false (fun l => .ok l)
        (compress_data false id [1, 2, 3] ++ List.replicate 9 0)
        = .ok [1, 2, 3] ∧
     deserialize_u32 false (serialize_u32 false 5) = 5) :=
  ⟨⟨rfl, by decide, by decide⟩,
   c10_compress_roundtrip_padding false id (fun l => .ok l) [1, 2, 3] 9 5
     rfl (by decide) (by decide)⟩

/-! ## C8 -/

theorem mem_quadrant_le {center p : Int × Int} {radius : Nat} {dx dy : Int}
    (hdx : dx = 1 ∨ dx = -1) (hdy : dy = 1 ∨ dy = -1)
    (hq : p ∈ quadrant center radius dx dy) :
    (p.1 - center.1).natAbs + (p.2 - center.2).natAbs ≤ radius := by
  simp only [quadrant, Finset.mem_biUnion, Finset.mem_range,
    Finset.mem_image] at hq
  obtain ⟨dr, hdr, i, hi, hpe⟩ := hq
  rcases hdx with h1 | h1 <;> rcases hdy with h2 | h2 <;>
    subst h1 <;> subst h2 <;> rw [← hpe] <;> simp only <;> omega

theorem mem_relevant_chunks (center p : Int × Int) (radius : Nat) :
    p ∈ relevant_chunks center radius ↔
      (p.1 - center.1).natAbs + (p.2 - center.2).natAbs ≤ radius := by
  constructor
  · intro hp
    rcases Finset.mem_insert.1 hp with h | h
    · subst h; simp
    · rcases Finset.mem_union.1 h with h | h4
      · rcases Finset.mem_union.1 h with h | h3
        · rcases Finset.mem_union.1 h with h1 | h2
          · exact mem_quadrant_le (Or.inr rfl) (Or.inl rfl) h1
          · exact mem_quadrant_le (Or.inl rfl) (Or.inl rfl) h2
        · exact mem_quadrant_le (Or.inr rfl) (Or.inr rfl) h3
      · exact mem_quadrant_le (Or.inl rfl) (Or.inr rfl) h4
  · intro hd
    rcases Nat.eq_zero_or_pos
        ((p.1 - center.1).natAbs + (p.2 - center.2).natAbs) with h0 | h1
    · refine Finset.mem_insert.2 (Or.inl ?_)
      rw [Prod.ext_iff]
      constructor <;> omega
    · refine Finset.mem_insert.2 (Or.inr ?_)
      have hmem : ∀ dx dy : Int,
          (center.1 + ((((p.1 - center.1).natAbs
              + (p.2 - center.2).natAbs - 1 : Nat) : Int) + 1
              - ((p.2 - center.2).natAbs : Int)) * dx = p.1) →
          (center.2 + (((p.2 - center.2).natAbs : Int)) * dy = p.2) →
          p ∈ quadrant center radius dx dy := by
        intro dx dy hx hy
        simp only [quadrant, Finset.mem_biUnion, Finset.mem_range,
          Finset.mem_image]
        refine ⟨(p.1 - center.1).natAbs + (p.2 - center.2).natAbs - 1,
          by omega, (p.2 - center.2).natAbs, by omega, ?_⟩
        rw [Prod.ext_iff]
        exact ⟨hx, hy⟩
      rcases le_or_lt center.1 p.1 with hx | hx <;>
        rcases le_or_lt center.2 p.2 with hy | hy
      · exact Finset.mem_union_left _ (Finset.mem_union_left _
          (Finset.mem_union_right _ (hmem 1 1 (by omega) (by omega))))
      · exact Finset.mem_union_right _ (hmem 1 (-1) (by omega) (by omega))
      · exact Finset.mem_union_left _ (Finset.mem_union_left _
          (Finset.mem_union_left _ (hmem (-1) 1 (by omega) (by omega))))
      · exact Finset.mem_union_left _ (Finset.mem_union_right _
          (hmem (-1) (-1) (by omega) (by omega)))

/-- Claim C8.  For every observer chunk `center` and every starting resident
set, after a successful `update_chunks()` the resident set is exactly the
L1 diamond of radius `UPDATE_RADIUS` around `center` — membership in the
post-state is equivalent to `|x - cx| + |y - cy| ≤ radius` — and for
radius 2 the diamond has exactly 13 chunks. -/
theorem c8_update_chunks_diamond :
    (∀ (resident : Finset (Int × Int)) (center p : Int × Int) (radius : Nat),
       p ∈ update_chunks_resident resident center radius ↔
         (p.1 - center.1).natAbs + (p.2 - center.2).natAbs ≤ radius) ∧
    (update_chunks_resident ∅ (0, 0) 2).card = 13 := by
  constructor
  · intro resident center p radius
    rw [← mem_relevant_chunks center p radius]
    simp only [update_chunks_resident, Finset.mem_filter, Finset.mem_union]
    tauto
  · decide

/-! ## C9 -/

/-- Claim C9.  For every region state and chunk index not in the dirty set,
whenever `read_chunk` returns an error — `NoChunkInSavefile` for an empty
slot, the decompression failure (`IoError`), or the deserializer failure
(`EncodingError`) — the region state (file and dirty set alike) is exactly
what it was before the call; the index is inserted into the dirty set only
when `read_chunk` returns a decoded payload. -/
theorem c9_read_chunk_error_preserves_dirty {C : Type} (r : Region)
    (bigEndian : Bool) (dec : List Nat → Except Unit (List Nat))
    (deser : List Nat → Except Unit C) (index : Int × Int)
    (h : index ∉ r.unsaved_chunks) :
    (∀ e, (read_chunk r bigEndian dec deser index).2 = .err e →
       (read_chunk r bigEndian dec deser index).1 = r) ∧
    (∀ c, (read_chunk r bigEndian dec deser index).2 = .ok c →
       (read_chunk r bigEndian dec deser index).1.unsaved_chunks
         = insert index r.unsaved_chunks) := by
  unfold read_chunk
  rw [if_neg h]
  simp only []
  rcases h1 : (read_chunk_offset r.file (normalize_chunk_index index)).2
      with _ | size
  · simp only [h1]
    exact ⟨fun e _ => trivial, fun c hc => by simp at hc⟩
  · simp only [h1]
    rcases h2 : decompress_data bigEndian dec
        (r.file.read_bytes
          (read_chunk_offset r.file (normalize_chunk_index index)).1 size)
        with e2 | dp
    · simp only [h2]
      exact ⟨fun e _ => trivial, fun c hc => by simp at hc⟩
    · simp only [h2]
      rcases h3 : deser dp with e3 | c3
      · simp only [h3]
        exact ⟨fun e _ => trivial, fun c hc => by simp at hc⟩
      · simp only [h3]
        exact ⟨fun e he => by simp at he, fun c _ => trivial⟩

/-- Claim C9 witness: the theorem applied to a freshly opened region (zeroed
lookup table, empty dirty set) at index `(0, 0)`, whose slot is empty. -/
theorem c9_read_chunk_error_preserves_dirty_witness :
    ((0, 0) ∉ (∅ : Finset (Int × Int))) ∧
    ((∀ e, (read_chunk ⟨⟨fun _ => 0, LOOKUP_TABLE_SIZE⟩, ∅⟩ false
          (fun l => .ok l) (fun _ => (.ok () : Except Unit Unit)) (0, 0)).2
            = .err e →
        (read_chunk ⟨⟨fun _ => 0, LOOKUP_TABLE_SIZE⟩, ∅⟩ false
          (fun l => .ok l) (fun _ => (.ok () : Except Unit Unit)) (0, 0)).1
            = ⟨⟨fun _ => 0, LOOKUP_TABLE_SIZE⟩, ∅⟩) ∧
     (∀ c, (read_chunk ⟨⟨fun _ => 0, LOOKUP_TABLE_SIZE⟩, ∅⟩ false
          (fun l => .ok l) (fun _ => (.ok () : Except Unit Unit)) (0, 0)).2
            = .ok c →
        (read_chunk ⟨⟨fun _ => 0, LOOKUP_TABLE_SIZE⟩, ∅⟩ false
          (fun l => .ok l) (fun _ => (.ok () : Except Unit Unit)) (0, 0)).1.unsaved_chunks
            = insert (0, 0) (∅ : Finset (Int × Int)))) :=
  ⟨by decide,
   c9_read_chunk_error_preserves_dirty ⟨⟨fun _ => 0, LOOKUP_TABLE_SIZE⟩, ∅⟩
     false (fun l => .ok l) (fun _ => (.ok () : Except Unit Unit)) (0, 0)
     (by decide)⟩

/-! ## C2 -/

/-- Claim C2 counterexample.  When `read_chunk` reports an I/O error,
`load_chunk` does *not* return that typed error to the caller: the
`Err(e) => panic!("{:?}", e)` arm panics with it instead.  Concretely, at
index `(0, 0)` with an empty resident set and `read_chunk` yielding
`IoError`, the outcome is the panic, never `err e` for any `e`. -/
theorem c2_load_chunk_panics_counterexample :
    (load_chunk ∅ (0, 0) (.error .IoError)).2.1 = .panickedOn .IoError ∧
    ∀ e, (load_chunk ∅ (0, 0) (.error .IoError)).2.1 ≠ .err e := by
  constructor
  · rfl
  · intro e he
    rw [show (load_chunk ∅ (0, 0) (.error .IoError)).2.1
        = .panickedOn .IoError from rfl] at he
    exact LoadOutcome.noConfusion he

/-- Claim C2 amended.  `load_chunk` calls the payload generator only when
`read_chunk` returned `NoChunkInSavefile`; every other error from
`read_chunk` makes `load_chunk` panic carrying that same error (it is not
returned as a typed error), with the resident set unchanged and no fresh
payload generated. -/
theorem c2_load_chunk_generator_only_on_missing
    (resident : Finset (Int × Int)) (index : Int × Int) (e : SerialError)
    (h : ∀ li, e ≠ .NoChunkInSavefile li) :
    load_chunk resident index (.error e)
      = (resident, .panickedOn e, false) ∧
    (∀ readRes, (load_chunk resident index readRes).2.2 = true →
       ∃ li, readRes = .error (.NoChunkInSavefile li)) := by
  constructor
  · cases e with
    | NoChunkInSavefile li => exact absurd rfl (h li)
    | NoChunkInWorld x y => rfl
    | ChunkAlreadyLoaded x y => rfl
    | IoError => rfl
    | EncodingError => rfl
  · intro readRes hgen
    match readRes with
    | .ok _ =>
        simp only [load_chunk] at hgen
        split at hgen <;> simp at hgen
    | .error (.NoChunkInSavefile li) => exact ⟨li, rfl⟩
    | .error (.NoChunkInWorld x y) => simp [load_chunk] at hgen
    | .error (.ChunkAlreadyLoaded x y) => simp [load_chunk] at hgen
    | .error .IoError => simp [load_chunk] at hgen
    | .error .EncodingError => simp [load_chunk] at hgen

/-- Claim C2 witness: the amended statement at an empty resident set, index
`(0, 0)` and the `IoError` read result. -/
theorem c2_load_chunk_generator_only_on_missing_witness :
    (∀ li, SerialError.IoError ≠ .NoChunkInSavefile li) ∧
    (load_chunk ∅ (0, 0) (.error .IoError)
        = (∅, .panickedOn .IoError, false) ∧
     (∀ readRes, (load_chunk ∅ (0, 0) readRes).2.2 = true →
        ∃ li, readRes = .error (.NoChunkInSavefile li))) :=
  ⟨fun _li he => SerialError.noConfusion he,
   c2_load_chunk_generator_only_on_missing ∅ (0, 0) .IoError
     (fun _li he => SerialError.noConfusion he)⟩

/-! ## C3 -/


theorem write_chunk_grow_panicked (r : Region) (encoded : List Nat)
    (index : Int × Int) (size : Nat)
    (hmem : index ∈ r.unsaved_chunks)
    (hslot : (read_chunk_offset r.file (normalize_chunk_index index)).2
      = some size)
    (hgrow : size < (pad_byte_vec encoded SECTOR_SIZE).length) :
    write_chunk r encoded index = .panicked r := by
  unfold write_chunk
  rw [if_neg (by simpa using hmem)]
  simp only [hslot]
  rw [if_neg (by omega)]

/-- Claim C3 counterexample.  Writing a payload whose padded length (8192)
exceeds the allocated record size (4096) does *not* return a typed
`RecordGrewPastAllocation` error — no such variant exists in
`SerialError`; the `assert!(size >= compressed.len())` panics instead.
The state at the panic is exactly the input state (file, slot and dirty
set unchanged), but the failure is a panic, not an `Ok` or typed error. -/
theorem c3_grow_panics_counterexample :
    write_chunk regionOneSector (List.replicate 4097 0) (2, 2)
      = .panicked regionOneSector ∧
    ∀ r, write_chunk regionOneSector (List.replicate 4097 0) (2, 2)
      ≠ .ok r := by
  have h : write_chunk regionOneSector (List.replicate 4097 0) (2, 2)
      = .panicked regionOneSector := by
    refine write_chunk_grow_panicked _ _ _ 4096 (by decide) (by decide) ?_
    rw [pad_byte_vec_length _ _ (by decide), List.length_replicate]
    decide
  exact ⟨h, fun r hr => WriteResult.noConfusion (h.symm.trans hr)⟩

/-- Claim C3 amended.  For every region state with an existing record for the
slot of `index`, if `write_chunk` is given a payload whose padded length
exceeds the record's allocated size, it fails by *panicking* (the
"Chunk data grew past allocated sector_count!" assert — there is no
`RecordGrewPastAllocation` variant in `SerialError`), and the region state
at the panic is exactly the input state: file contents, lookup-table slot
and dirty set are unchanged by the failed call. -/
theorem c3_grow_panics (r : Region) (encoded : List Nat)
    (index : Int × Int) (size : Nat)
    (hmem : index ∈ r.unsaved_chunks)
    (hslot : (read_chunk_offset r.file (normalize_chunk_index index)).2
      = some size)
    (hgrow : size < (pad_byte_vec encoded SECTOR_SIZE).length) :
    write_chunk r encoded index = .panicked r :=
  write_chunk_grow_panicked r encoded index size hmem hslot hgrow

/-- Claim C3 witness: the amended statement at `regionOneSector` with a
4097-byte payload (padded to 8192 bytes) for chunk `(2, 2)`, whose record
has 4096 bytes allocated. -/
theorem c3_grow_panics_witness :
    ((2, 2) ∈ regionOneSector.unsaved_chunks ∧
     (read_chunk_offset regionOneSector.file
        (normalize_chunk_index (2, 2))).2 = some 4096 ∧
     4096 < (pad_byte_vec (List.replicate 4097 0) SECTOR_SIZE).length) ∧
    write_chunk regionOneSector (List.replicate 4097 0) (2, 2)
      = .panicked regionOneSector :=
  ⟨⟨by decide, by decide,
    by rw [pad_byte_vec_length _ _ (by decide), List.length_replicate]; decide⟩,
   c3_grow_panics regionOneSector (List.replicate 4097 0) (2, 2) 4096
     (by decide) (by decide)
     (by rw [pad_byte_vec_length _ _ (by decide), List.length_replicate];
         decide)⟩

/-! ## C4 -/

theorem write_chunk_offset_read_bytes (f1 : FileModel) (li : Int × Int)
    (eof m : Nat) :
    (write_chunk_offset f1 li eof m).read_byte (get_chunk_offset li)
      = (eof - LOOKUP_TABLE_SIZE) / SECTOR_SIZE % 256 ∧
    (write_chunk_offset f1 li eof m).read_byte (get_chunk_offset li + 1)
      = m := by
  unfold write_chunk_offset create_lookup_table_entry
  constructor
  · rw [FileModel.read_byte_write_inside _ _ _ _ (le_refl _)
      (by simp), Nat.sub_self, List.getD_cons_zero]
  · rw [FileModel.read_byte_write_inside _ _ _ _ (by omega)
      (by simp), Nat.add_sub_cancel_left, List.getD_cons_succ,
      List.getD_cons_zero]

theorem append_chunk_count_overflow (f : FileModel) (data : List Nat)
    (li : Int × Int)
    (h : 256 ≤ (data.length + SECTOR_SIZE - 1) / SECTOR_SIZE) :
    append_chunk f data li = .panicked f := by
  unfold append_chunk
  rw [if_pos (Or.inl h)]

/-- Full evaluation of `append_chunk` on sector-aligned data: the data is
appended at end of file and the lookup-table entry written; the operation
succeeds exactly when the sector offset survives the `u8` cast, and
otherwise dies on the read-back assert with the truncated entry already in
the file. -/
theorem append_chunk_eval (f : FileModel) (data : List Nat) (li : Int × Int)
    (k m : Nat)
    (hlen : f.length = LOOKUP_TABLE_SIZE + k * SECTOR_SIZE)
    (hdata : data.length = m * SECTOR_SIZE) (hm0 : 0 < m) (hm : m < 256) :
    append_chunk f data li
      = if k % 256 = k
        then .ok (write_chunk_offset (f.write f.length data) li f.length m)
        else .panicked
          (write_chunk_offset (f.write f.length data) li f.length m) := by
  have hS : SECTOR_SIZE = 4096 := rfl
  have hL : LOOKUP_TABLE_SIZE = 512 := rfl
  have hsc : (data.length + SECTOR_SIZE - 1) / SECTOR_SIZE = m := by
    rw [hdata, hS]; omega
  have hoff : (f.length - LOOKUP_TABLE_SIZE) / SECTOR_SIZE % 256
      = k % 256 := by rw [hlen, hL, hS]; omega
  obtain ⟨hb0, hb1⟩ := write_chunk_offset_read_bytes
    (f.write f.length data) li f.length m
  unfold append_chunk
  simp only [hsc]
  rw [if_neg (by omega)]
  unfold read_chunk_offset
  simp only [hb0, hb1, hoff]
  rcases eq_or_ne (k % 256) k with hk | hk
  · rw [if_pos ⟨by rw [hlen, hk, hL, hS], by rw [if_neg (by omega)]⟩,
      if_pos hk]
  · rw [if_neg ?_, if_neg hk]
    rintro ⟨h1, -⟩
    rw [hlen, hL, hS] at h1
    omega


/-- Claim C4 counterexample.  Appending a one-sector chunk to `bigFile`
(whose next record would start at sector offset 256) does *not* return a
typed `RegionFull` error — no such variant exists in `SerialError`; the
sector offset *is* silently truncated by the `as u8` cast when stored into
the lookup-table entry (the stored offset byte is `0`, not 256), and the
operation then dies on the read-back `assert_eq!` with the truncated entry
already written. -/
theorem c4_offset_truncated_counterexample :
    (∃ f', append_chunk bigFile (List.replicate 4096 0) (2, 2)
        = .panicked f' ∧
      f'.read_byte (get_chunk_offset (2, 2)) = 0 ∧
      f'.read_byte (get_chunk_offset (2, 2) + 1) = 1) ∧
    (bigFile.length - LOOKUP_TABLE_SIZE) / SECTOR_SIZE = 256 ∧
    create_lookup_table_entry bigFile.length 1 = [0, 1] := by
  have hdata : (List.replicate 4096 0 : List Nat).length = 1 * SECTOR_SIZE := by
    rw [List.length_replicate]; decide
  have happ := append_chunk_eval bigFile (List.replicate 4096 0) (2, 2)
    256 1 (by decide) hdata (by decide) (by decide)
  rw [if_neg (by decide)] at happ
  obtain ⟨hb0, hb1⟩ := write_chunk_offset_read_bytes
    (bigFile.write bigFile.length (List.replicate 4096 0)) (2, 2)
    bigFile.length 1
  exact ⟨⟨_, happ, by rw [hb0]; decide, hb1⟩, by decide, by decide⟩

/-- Claim C4 amended.  On the append path there is no typed `RegionFull`
error: a sector count of 256 or more makes `append_chunk` panic on its
`assert!(sector_count < 256)` before writing anything, while a sector
offset that does not fit in a `u8` *is* silently truncated to 8 bits when
stored into the lookup-table entry — the entry with offset byte `k % 256`
is written to the file — and the operation then dies on the read-back
`assert_eq!` (a panic, not a typed error). -/
theorem c4_region_full_is_panic_and_truncation (f : FileModel)
    (data : List Nat) (li : Int × Int) (k : Nat)
    (hlen : f.length = LOOKUP_TABLE_SIZE + k * SECTOR_SIZE)
    (hk : 256 ≤ k) (hdata : data.length = SECTOR_SIZE) :
    (∃ f', append_chunk f data li = .panicked f' ∧
       f'.read_byte (get_chunk_offset li) = k % 256 ∧
       f'.read_byte (get_chunk_offset li + 1) = 1 ∧ k % 256 ≠ k) ∧
    (∀ (g : FileModel) (d : List Nat) (lj : Int × Int),
       256 ≤ (d.length + SECTOR_SIZE - 1) / SECTOR_SIZE →
       append_chunk g d lj = .panicked g) := by
  constructor
  · have happ := append_chunk_eval f data li k 1 hlen
      (by rw [hdata, Nat.one_mul]) (by omega) (by omega)
    rw [if_neg (by omega)] at happ
    obtain ⟨hb0, hb1⟩ := write_chunk_offset_read_bytes
      (f.write f.length data) li f.length 1
    have hS : SECTOR_SIZE = 4096 := rfl
    have hL : LOOKUP_TABLE_SIZE = 512 := rfl
    have hb0q : (write_chunk_offset (f.write f.length data) li
        f.length 1).read_byte (get_chunk_offset li) = k % 256 := by
      rw [hb0, hlen, hS, hL]; omega
    exact ⟨_, happ, hb0q, hb1, by omega⟩
  · exact fun g d lj h => append_chunk_count_overflow g d lj h

/-- Claim C4 witness: the amended statement at `bigFile` with a one-sector
payload for local index `(2, 2)` and sector offset `k = 256`. -/
theorem c4_region_full_is_panic_and_truncation_witness :
    (bigFile.length = LOOKUP_TABLE_SIZE + 256 * SECTOR_SIZE ∧
     256 ≤ 256 ∧
     (List.replicate 4096 0 : List Nat).length = SECTOR_SIZE) ∧
    ((∃ f', append_chunk bigFile (List.replicate 4096 0) (2, 2)
        = .panicked f' ∧
       f'.read_byte (get_chunk_offset (2, 2)) = 256 % 256 ∧
       f'.read_byte (get_chunk_offset (2, 2) + 1) = 1 ∧ 256 % 256 ≠ 256) ∧
     (∀ (g : FileModel) (d : List Nat) (lj : Int × Int),
        256 ≤ (d.length + SECTOR_SIZE - 1) / SECTOR_SIZE →
        append_chunk g d lj = .panicked g)) :=
  ⟨⟨by decide, by decide, by rw [List.length_replicate]; decide⟩,
   c4_region_full_is_panic_and_truncation bigFile (List.replicate 4096 0)
     (2, 2) 256 (by decide) (by decide)
     (by rw [List.length_replicate]; decide)⟩

/-! ## C7 -/

theorem read_chunk_offset_fst (f : FileModel) (li : Int × Int) :
    (read_chunk_offset f li).1
      = LOOKUP_TABLE_SIZE + f.read_byte (get_chunk_offset li) * SECTOR_SIZE :=
  rfl

/-- Claim C7.  Every `write_chunk` that takes the in-place-update path (the
slot is nonempty and the existing allocation is at least the new padded
length) succeeds with: the file length unchanged, every byte outside
`[record_offset, record_offset + padded_len)` unchanged — in particular
the whole lookup table, hence the slot's offset and count bytes — and the
only state change besides those record bytes being the removal of the
chunk from the dirty set.  (Trailing reserved sectors of the record lie
outside the written interval, hence keep their prior values.) -/
theorem c7_update_in_place_frame (r : Region) (encoded : List Nat)
    (index : Int × Int) (size : Nat)
    (hmem : index ∈ r.unsaved_chunks)
    (hslot : (read_chunk_offset r.file (normalize_chunk_index index)).2
      = some size)
    (hfit : (pad_byte_vec encoded SECTOR_SIZE).length ≤ size)
    (hin : (read_chunk_offset r.file (normalize_chunk_index index)).1 + size
      ≤ r.file.length) :
    ∃ r', write_chunk r encoded index = .ok r' ∧
      r'.file.length = r.file.length ∧
      (∀ i, i < (read_chunk_offset r.file (normalize_chunk_index index)).1
          ∨ (read_chunk_offset r.file (normalize_chunk_index index)).1
            + (pad_byte_vec encoded SECTOR_SIZE).length ≤ i →
        r'.file.read_byte i = r.file.read_byte i) ∧
      (∀ j, j < LOOKUP_TABLE_SIZE →
        r'.file.read_byte j = r.file.read_byte j) ∧
      r'.file.read_byte (get_chunk_offset (normalize_chunk_index index))
        = r.file.read_byte (get_chunk_offset (normalize_chunk_index index)) ∧
      r'.file.read_byte (get_chunk_offset (normalize_chunk_index index) + 1)
        = r.file.read_byte
            (get_chunk_offset (normalize_chunk_index index) + 1) ∧
      r'.unsaved_chunks = r.unsaved_chunks.erase index := by
  have hok : write_chunk r encoded index
      = .ok ⟨update_chunk r.file (pad_byte_vec encoded SECTOR_SIZE)
          (read_chunk_offset r.file (normalize_chunk_index index)).1,
        r.unsaved_chunks.erase index⟩ := by
    unfold write_chunk
    rw [if_neg (by simpa using hmem)]
    simp only [hslot]
    rw [if_pos hfit]
  have hoff : LOOKUP_TABLE_SIZE
      ≤ (read_chunk_offset r.file (normalize_chunk_index index)).1 := by
    rw [read_chunk_offset_fst]; omega
  have hframe : ∀ i,
      i < (read_chunk_offset r.file (normalize_chunk_index index)).1
        ∨ (read_chunk_offset r.file (normalize_chunk_index index)).1
          + (pad_byte_vec encoded SECTOR_SIZE).length ≤ i →
      (update_chunk r.file (pad_byte_vec encoded SECTOR_SIZE)
        (read_chunk_offset r.file (normalize_chunk_index index)).1).read_byte
          i = r.file.read_byte i := by
    intro i hi
    exact FileModel.read_byte_write_outside _ _ _ _ hi
  have htable : ∀ j, j < LOOKUP_TABLE_SIZE →
      (update_chunk r.file (pad_byte_vec encoded SECTOR_SIZE)
        (read_chunk_offset r.file (normalize_chunk_index index)).1).read_byte
          j = r.file.read_byte j := by
    intro j hj
    exact hframe j (Or.inl (by omega))
  obtain ⟨t, ht, hteq⟩ := get_chunk_offset_normalize index
  have hLTS : LOOKUP_TABLE_SIZE = 512 := rfl
  refine ⟨_, hok, ?_, hframe, htable,
    htable _ (by omega), htable _ (by omega), rfl⟩
  unfold update_chunk
  rw [FileModel.length_write]
  omega

/-- Claim C7 witness: the frame property at `regionOneSector` (slot `(0, 1)`
for chunk `(2, 2)`, file length 4608) with a 4000-byte payload, which pads
to 4096 bytes and fits the allocated sector. -/
theorem c7_update_in_place_frame_witness :
    ((2, 2) ∈ regionOneSector.unsaved_chunks ∧
     (read_chunk_offset regionOneSector.file
        (normalize_chunk_index (2, 2))).2 = some 4096 ∧
     (pad_byte_vec (List.replicate 4000 0) SECTOR_SIZE).length ≤ 4096 ∧
     (read_chunk_offset regionOneSector.file
        (normalize_chunk_index (2, 2))).1 + 4096
       ≤ regionOneSector.file.length) ∧
    (∃ r', write_chunk regionOneSector (List.replicate 4000 0) (2, 2)
        = .ok r' ∧
      r'.file.length = regionOneSector.file.length ∧
      (∀ i, i < (read_chunk_offset regionOneSector.file
            (normalize_chunk_index (2, 2))).1
          ∨ (read_chunk_offset regionOneSector.file
              (normalize_chunk_index (2, 2))).1
            + (pad_byte_vec (List.replicate 4000 0) SECTOR_SIZE).length ≤ i →
        r'.file.read_byte i = regionOneSector.file.read_byte i) ∧
      (∀ j, j < LOOKUP_TABLE_SIZE →
        r'.file.read_byte j = regionOneSector.file.read_byte j) ∧
      r'.file.read_byte (get_chunk_offset (normalize_chunk_index (2, 2)))
        = regionOneSector.file.read_byte
            (get_chunk_offset (normalize_chunk_index (2, 2))) ∧
      r'.file.read_byte
          (get_chunk_offset (normalize_chunk_index (2, 2)) + 1)
        = regionOneSector.file.read_byte
            (get_chunk_offset (normalize_chunk_index (2, 2)) + 1) ∧
      r'.unsaved_chunks = regionOneSector.unsaved_chunks.erase (2, 2)) :=
  ⟨⟨by decide, by decide,
    by rw [pad_byte_vec_length _ _ (by decide), List.length_replicate]; decide,
    by decide⟩,
   c7_update_in_place_frame regionOneSector (List.replicate 4000 0) (2, 2)
     4096 (by decide) (by decide)
     (by rw [pad_byte_vec_length _ _ (by decide), List.length_replicate];
         decide)
     (by decide)⟩

/-! ## C6 -/




theorem table_ok_write_step (f : FileModel) (encoded : List Nat)
    (index : Int × Int) (r' : Region)
    (h : write_chunk ⟨f, {index}⟩ encoded index = .ok r')
    (ih : table_ok f) : table_ok r'.file := by
  obtain ⟨⟨k, hk⟩, hslots⟩ := ih
  have hS : SECTOR_SIZE = 4096 := rfl
  have hL : LOOKUP_TABLE_SIZE = 512 := rfl
  have hplen := pad_byte_vec_length encoded SECTOR_SIZE (by decide)
  obtain ⟨t, ht256, hteq⟩ := get_chunk_offset_normalize index
  unfold write_chunk at h
  rw [if_neg (by simp : ¬index ∉ ({index} : Finset (Int × Int)))] at h
  simp only [] at h
  rcases hslot : (read_chunk_offset f (normalize_chunk_index index)).2
      with _ | size
  · -- append path
    simp only [hslot] at h
    rcases Nat.lt_or_ge (encoded.length / SECTOR_SIZE + 1) 256
        with hm256 | hm256
    · have happ := append_chunk_eval f (pad_byte_vec encoded SECTOR_SIZE)
        (normalize_chunk_index index) k (encoded.length / SECTOR_SIZE + 1)
        hk (by rw [hplen]; exact Nat.mul_comm _ _) (Nat.succ_pos _) hm256
      rw [happ] at h
      rcases eq_or_ne (k % 256) k with hkk | hkk
      · rw [if_pos hkk] at h
        cases h
        simp only []
        obtain ⟨hb0, hb1⟩ := write_chunk_offset_read_bytes
          (f.write f.length (pad_byte_vec encoded SECTOR_SIZE))
          (normalize_chunk_index index) f.length
          (encoded.length / SECTOR_SIZE + 1)
        constructor
        · refine ⟨k + (encoded.length / SECTOR_SIZE + 1), ?_⟩
          unfold write_chunk_offset
          rw [FileModel.length_write, FileModel.length_write,
            (rfl : (create_lookup_table_entry f.length
              (encoded.length / SECTOR_SIZE + 1)).length = 2), hteq]
          simp only [hS, hL] at hk hplen ⊢
          have hj : (create_lookup_table_entry f.length
              (encoded.length / 4096 + 1)).length = 2 := rfl
          omega
        · intro s hs
          by_cases hst : s = t
          · subst hst
            right
            rw [← hteq]
            refine ⟨?_, ?_, ?_⟩
            · rw [hb0]; simp only [hS, hL]; omega
            · rw [hb1]; simp only [hS]; omega
            · rw [hb1]; simp only [hS] at hm256 ⊢; omega
          · have houter : ∀ i, (i < get_chunk_offset
                (normalize_chunk_index index)
                ∨ get_chunk_offset (normalize_chunk_index index) + 2 ≤ i) →
                i < f.length →
                (write_chunk_offset
                  (f.write f.length (pad_byte_vec encoded SECTOR_SIZE))
                  (normalize_chunk_index index) f.length
                  (encoded.length / SECTOR_SIZE + 1)).read_byte i
                  = f.read_byte i := by
              intro i hi hif
              unfold write_chunk_offset
              have hlen2 : (create_lookup_table_entry f.length
                  (encoded.length / SECTOR_SIZE + 1)).length = 2 := rfl
              rw [FileModel.read_byte_write_outside _ _ _ i
                (by rw [hlen2]; exact hi)]
              exact FileModel.read_byte_write_outside _ _ _ i
                (Or.inl hif)
            have e0 := houter (2 * s) (by omega)
              (by simp only [hS, hL] at hk; omega)
            have e1 := houter (2 * s + 1) (by omega)
              (by simp only [hS, hL] at hk; omega)
            rw [e0, e1]
            exact hslots s hs
      · rw [if_neg hkk] at h
        simp only [] at h
        exact absurd h (by simp)
    · have hov := append_chunk_count_overflow f
        (pad_byte_vec encoded SECTOR_SIZE) (normalize_chunk_index index)
        (by rw [hplen]; simp only [hS] at hm256 ⊢; omega)
      rw [hov] at h
      simp only [] at h
      exact absurd h (by simp)
  · -- in-place update path
    simp only [hslot] at h
    split at h
    · cases h
      simp only []
      constructor
      · refine ⟨max k (f.read_byte (get_chunk_offset
          (normalize_chunk_index index)) + (encoded.length / SECTOR_SIZE + 1)),
          ?_⟩
        unfold update_chunk
        rw [FileModel.length_write, read_chunk_offset_fst]
        simp only [hS, hL] at hk hplen ⊢
        omega
      · intro s hs
        have hge : LOOKUP_TABLE_SIZE
            ≤ (read_chunk_offset f (normalize_chunk_index index)).1 := by
          rw [read_chunk_offset_fst]; omega
        have e0 : (update_chunk f (pad_byte_vec encoded SECTOR_SIZE)
            (read_chunk_offset f (normalize_chunk_index index)).1).read_byte
              (2 * s) = f.read_byte (2 * s) :=
          FileModel.read_byte_write_outside _ _ _ _
            (Or.inl (by simp only [hL] at hge; omega))
        have e1 : (update_chunk f (pad_byte_vec encoded SECTOR_SIZE)
            (read_chunk_offset f (normalize_chunk_index index)).1).read_byte
              (2 * s + 1) = f.read_byte (2 * s + 1) :=
          FileModel.read_byte_write_outside _ _ _ _
            (Or.inl (by simp only [hL] at hge; omega))
        rw [e0, e1]
        exact hslots s hs
    · exact absurd h (by simp)

theorem write_chunk_append_eval (f : FileModel) (index : Int × Int)
    (encoded : List Nat) (k m : Nat)
    (hlen : f.length = LOOKUP_TABLE_SIZE + k * SECTOR_SIZE) (hk : k < 256)
    (hempty : f.read_byte
      (get_chunk_offset (normalize_chunk_index index) + 1) = 0)
    (hm : (pad_byte_vec encoded SECTOR_SIZE).length = m * SECTOR_SIZE)
    (hm0 : 0 < m) (hm255 : m < 256) :
    write_chunk ⟨f, {index}⟩ encoded index
      = .ok ⟨write_chunk_offset
          (f.write f.length (pad_byte_vec encoded SECTOR_SIZE))
          (normalize_chunk_index index) f.length m,
        ({index} : Finset (Int × Int)).erase index⟩ := by
  have hslot : (read_chunk_offset f (normalize_chunk_index index)).2
      = none := by
    unfold read_chunk_offset
    simp [hempty]
  unfold write_chunk
  rw [if_neg (by simp : ¬index ∉ ({index} : Finset (Int × Int)))]
  simp only [hslot]
  rw [append_chunk_eval f (pad_byte_vec encoded SECTOR_SIZE)
      (normalize_chunk_index index) k m hlen hm hm0 hm255]
  rw [if_pos (by omega)]


/-- Claim C6 counterexample.  The very first record appended to a fresh
region is stored with sector offset byte `0` and sector count `1`: a
reachable state whose lookup-table slot has a *nonzero* `sector_count`
together with `sector_offset = 0`, contradicting the claimed invariant
`1 ≤ sector_offset` for occupied slots.  (Emptiness is decided by the
count byte alone; offset 0 is a legitimate record position.) -/
theorem c6_offset_zero_slot_counterexample :
    ReachableFile firstAppendFile ∧
    firstAppendFile.read_byte
      (get_chunk_offset (normalize_chunk_index (2, 2))) = 0 ∧
    firstAppendFile.read_byte
      (get_chunk_offset (normalize_chunk_index (2, 2)) + 1) = 1 ∧
    (1 : Nat) ≠ 0 := by
  have hw := write_chunk_append_eval freshFile (2, 2)
    (List.replicate 3000 0) 0 1 (by decide) (by decide) (by decide)
    (by rw [pad_byte_vec_length _ _ (by decide), List.length_replicate]
        decide)
    (by decide) (by decide)
  obtain ⟨hb0, hb1⟩ := write_chunk_offset_read_bytes
    (freshFile.write freshFile.length
      (pad_byte_vec (List.replicate 3000 0) SECTOR_SIZE))
    (normalize_chunk_index (2, 2)) freshFile.length 1
  refine ⟨ReachableFile.write freshFile (List.replicate 3000 0) (2, 2) _
      ReachableFile.fresh hw, ?_, ?_, by decide⟩
  · unfold firstAppendFile
    rw [hb0]
    decide
  · unfold firstAppendFile
    rw [hb1]

/-- Claim C6 amended.  In every region-file state reachable by the region's
own operations (fresh creation, successful `write_chunk` appends and
in-place updates), the file length is the lookup table plus whole sectors,
and every lookup-table slot is either `(0, 0)` (empty) or holds
`0 ≤ sector_offset ≤ 255` and `1 ≤ sector_count ≤ 255` — the spec's lower
bound `1 ≤ sector_offset` is relaxed to `0`, because the first appended
record legitimately lives at sector offset 0 and only the count byte
decides emptiness. -/
theorem c6_lookup_slots_invariant (f : FileModel) (hf : ReachableFile f) :
    table_ok f := by
  induction hf with
  | fresh =>
      constructor
      · exact ⟨0, by decide⟩
      · intro s hs
        left
        constructor <;>
          · unfold freshFile FileModel.read_byte
            split_ifs <;> rfl
  | write f encoded index r' hf h ih =>
      exact table_ok_write_step f encoded index r' h ih

/-- Claim C6 witness: the invariant at the freshly created region file. -/
theorem c6_lookup_slots_invariant_witness :
    ReachableFile freshFile ∧ table_ok freshFile :=
  ⟨ReachableFile.fresh,
   c6_lookup_slots_invariant freshFile ReachableFile.fresh⟩

end Infinigen
